import Mathlib

/-!
Shallow embedding of `src/blockchain/blockchain.rs` (the blockchain anchor /
audit core of the 7th_estate repository), together with models of the
collaborator modules it uses (`merkle`, `etherscan`, `untagged`) and of the
library contracts it relies on (`hex`, `std::str`, `serde_json`, `secp256k1`,
`web3`).  Rust strings and byte vectors are modelled as lists of byte values
(`List Nat`, each entry < 256 on real inputs); fallible Rust code returns
`Except`, and panics (`unwrap` / `expect` / slice-out-of-bounds) are modelled
as `Except.error` values that propagate.
-/

/-- A Rust `String` / `Vec<u8>` modelled as a list of byte values. -/
abbrev Str := List Nat

/-- `untagged::ChoiceValue`: the two-valued choice tag. -/
inductive ChoiceValue
  | For
  | Against
deriving DecidableEq, Repr

/-- `untagged::VoteCode`: an opaque vote-code string. -/
abbrev VoteCode := Str

/-- One `(votecode, choice)` entry of a ballot (the `choice1` / `choice2`
fields read by `map_votes`). -/
structure BallotChoice where
  votecode : VoteCode
  choice : ChoiceValue
deriving DecidableEq, Repr

/-- `untagged::Ballot`: a serial number plus two tagged vote codes. -/
structure Ballot where
  serial : Nat
  choice1 : BallotChoice
  choice2 : BallotChoice
deriving DecidableEq, Repr

/-- `etherscan::Transaction`, modelled with the one field the core reads:
the `input` hex string of the on-ledger transaction. -/
structure Transaction where
  input : Str
deriving DecidableEq, Repr

/-- Modelled from the spec: `etherscan::SubmittedVote` (not under `src/`) is
"a decoded payload recovered from a transaction, containing (at minimum) a
vote code"; it carries the vote-code string of the JSON wire document. -/
structure SubmittedVote where
  votecode : Str
deriving DecidableEq, Repr

deriving instance DecidableEq for Except

/-- The panics that the embedded code can raise. -/
inductive PanicKind
  | inputSlice
  | unwrapFailed
  | rosterNone
  | auditedNone
deriving DecidableEq, Repr

/-! ### Model of `std::collections::HashMap<VoteCode, ChoiceValue>`

An association list that never holds two entries for the same key when built
by `insert` from the empty map; `insert` overwrites in place, `remove`
returns the mapped value and deletes the key, `len` is the entry count. -/

/-- The underlying representation of the vote-code index. -/
abbrev HMap := List (VoteCode × ChoiceValue)

/-- `HashMap::get`-style lookup: first entry with the given key. -/
def HMap.lookup (k : VoteCode) : HMap → Option ChoiceValue
  | [] => none
  | p :: rest => if p.1 = k then some p.2 else HMap.lookup k rest

/-- `HashMap::insert`: overwrite the entry for `k` when present, otherwise
append a new entry. -/
def HMap.insert (m : HMap) (k : VoteCode) (v : ChoiceValue) : HMap :=
  if (HMap.lookup k m).isSome then
    m.map (fun p => if p.1 = k then (k, v) else p)
  else
    m ++ [(k, v)]

/-- `HashMap::remove`: the mapped value (if any) together with the map with
every entry for `k` deleted. -/
def HMap.remove (m : HMap) (k : VoteCode) : Option ChoiceValue × HMap :=
  (HMap.lookup k m, m.filter (fun p => decide (p.1 ≠ k)))

/-! ### Library contracts: `hex`, UTF-8 validation -/

/-- The value of one ASCII hex digit (`hex` crate accepts both cases). -/
def hexDigitVal (b : Nat) : Option Nat :=
  if 0x30 ≤ b ∧ b ≤ 0x39 then some (b - 0x30)
  else if 0x61 ≤ b ∧ b ≤ 0x66 then some (b - 0x61 + 10)
  else if 0x41 ≤ b ∧ b ≤ 0x46 then some (b - 0x41 + 10)
  else none

/-- `hex::decode`: pairs of hex digits to bytes; odd length or a non-digit
fails. -/
def hexDecode : Str → Option Str
  | [] => some []
  | [_] => none
  | h :: l :: rest =>
    match hexDigitVal h, hexDigitVal l, hexDecode rest with
    | some hv, some lv, some bs => some ((16 * hv + lv) :: bs)
    | _, _, _ => none

/-- Lowercase hex digit for a value < 16 (used to build concrete wire
inputs). -/
def hexDigitChar (n : Nat) : Nat :=
  if n < 10 then 0x30 + n else 0x61 + n - 10

/-- `hex::encode` (lowercase), used to construct concrete transaction
inputs. -/
def hexEncode : Str → Str
  | [] => []
  | b :: rest => hexDigitChar (b / 16) :: hexDigitChar (b % 16) :: hexEncode rest

/-- A UTF-8 continuation byte (`0x80..=0xBF`); also exactly the bytes at
which a Rust `str` position is not a character boundary. -/
def isUtf8Cont (b : Nat) : Bool := 0x80 ≤ b && b < 0xC0

/-- UTF-8 validity of a byte sequence, following the standard table used by
`String::from_utf8` (rejecting overlong forms and surrogates). -/
def validUtf8 : Str → Bool
  | [] => true
  | b :: rest =>
    if b < 0x80 then validUtf8 rest
    else if 0xC2 ≤ b && b ≤ 0xDF then
      match rest with
      | c1 :: r => isUtf8Cont c1 && validUtf8 r
      | [] => false
    else if b = 0xE0 then
      match rest with
      | c1 :: c2 :: r => (0xA0 ≤ c1 && c1 ≤ 0xBF) && isUtf8Cont c2 && validUtf8 r
      | _ => false
    else if (0xE1 ≤ b && b ≤ 0xEC) || b = 0xEE || b = 0xEF then
      match rest with
      | c1 :: c2 :: r => isUtf8Cont c1 && isUtf8Cont c2 && validUtf8 r
      | _ => false
    else if b = 0xED then
      match rest with
      | c1 :: c2 :: r => (0x80 ≤ c1 && c1 ≤ 0x9F) && isUtf8Cont c2 && validUtf8 r
      | _ => false
    else if b = 0xF0 then
      match rest with
      | c1 :: c2 :: c3 :: r =>
        (0x90 ≤ c1 && c1 ≤ 0xBF) && isUtf8Cont c2 && isUtf8Cont c3 && validUtf8 r
      | _ => false
    else if 0xF1 ≤ b && b ≤ 0xF3 then
      match rest with
      | c1 :: c2 :: c3 :: r =>
        isUtf8Cont c1 && isUtf8Cont c2 && isUtf8Cont c3 && validUtf8 r
      | _ => false
    else if b = 0xF4 then
      match rest with
      | c1 :: c2 :: c3 :: r =>
        (0x80 ≤ c1 && c1 ≤ 0x8F) && isUtf8Cont c2 && isUtf8Cont c3 && validUtf8 r
      | _ => false
    else false

/-- `String::from_utf8`: the same bytes when they are valid UTF-8 (a Rust
`String` is its UTF-8 byte sequence in this model), failure otherwise. -/
def string_from_utf8 (bs : Str) : Option Str :=
  if validUtf8 bs then some bs else none

/-! ### Model of `serde_json::from_str::<SubmittedVote>` -/

/-- The bytes of `{"votecode":"` — the opening of the vote wire document. -/
def jsonHead : Str :=
  [0x7B, 0x22, 0x76, 0x6F, 0x74, 0x65, 0x63, 0x6F, 0x64, 0x65, 0x22, 0x3A, 0x22]

/-- The bytes of `"}` — the closing of the vote wire document. -/
def jsonTail : Str := [0x22, 0x7D]

/-- A byte allowed inside the JSON string literal without escaping. -/
def jsonStringChar (b : Nat) : Bool :=
  0x20 ≤ b && b ≠ 0x22 && b ≠ 0x5C

/-- Modelled from the spec: `serde_json::from_str::<SubmittedVote>` parsing
the documented wire payload, "hex-encoded UTF-8 bytes of a JSON document
describing the submitted vote code"; it accepts exactly the documents of the
shape used by the spec's end-to-end test (`{"votecode":"<code>"}` with an
unescaped string literal) and fails on anything else. -/
def serde_json_from_str (s : Str) : Option SubmittedVote :=
  if 15 ≤ s.length ∧ s.take 13 = jsonHead ∧ s.drop (s.length - 2) = jsonTail
      ∧ ((s.drop 13).take (s.length - 15)).all jsonStringChar then
    some ⟨(s.drop 13).take (s.length - 15)⟩
  else none

/-- The wire input of a transaction submitting `code`: ASCII `0x` followed by
the lowercase hex encoding of the UTF-8 JSON document.  Used to build the
concrete transactions of the spec's examples. -/
def mkVoteInput (code : Str) : Str :=
  0x30 :: 0x78 :: hexEncode (jsonHead ++ code ++ jsonTail)

/-- Modelled from the spec: `SubmittedVote::to_votecode` (etherscan module,
not under `src/`) converts the payload's vote-code string into a `VoteCode`.
Its call site in `count_votes` unwraps a fallible result, so the model keeps
the fallible signature; it rejects the degenerate empty code and returns the
string itself otherwise (the spec's examples use plain strings such as
`"1111"` as vote codes). -/
def SubmittedVote.to_votecode (v : SubmittedVote) : Option VoteCode :=
  if v.votecode = [] then none else some v.votecode

/-! ### The decoder and tally of `blockchain.rs` -/

/-- `transaction_to_votecode` (blockchain.rs:61-82): strip the two leading
bytes of the input (`&transaction.input[2..]` — a panic when the input is
shorter than two bytes, or when byte 2 exists and is not a character
boundary), hex-decode the remainder, interpret as UTF-8, parse as JSON; any
stage failure yields `none`. -/
def transaction_to_votecode (transaction : Transaction) :
    Except PanicKind (Option SubmittedVote) :=
  if transaction.input.length < 2 then .error .inputSlice
  else if 2 < transaction.input.length ∧ isUtf8Cont (transaction.input.getD 2 0) then
    .error .inputSlice
  else
    match hexDecode (transaction.input.drop 2) with
    | none => .ok none
    | some bytes =>
      match string_from_utf8 bytes with
      | none => .ok none
      | some s =>
        match serde_json_from_str s with
        | none => .ok none
        | some vote => .ok (some vote)

/-- The loop body state of `count_votes`: the remaining index and the two
counters, threaded through the transactions in ledger order. -/
def countLoop (choices : HMap) (vote_for vote_against : Nat) :
    List Transaction → Except PanicKind (HMap × Nat × Nat)
  | [] => .ok (choices, vote_for, vote_against)
  | transaction :: rest =>
    match transaction_to_votecode transaction with
    | .error p => .error p
    | .ok none => countLoop choices vote_for vote_against rest
    | .ok (some vote) =>
      match vote.to_votecode with
      | none => .error .unwrapFailed
      | some votecode =>
        match HMap.remove choices votecode with
        | (none, _) => countLoop choices vote_for vote_against rest
        | (some ChoiceValue.For, choices') =>
          countLoop choices' (vote_for + 1) vote_against rest
        | (some ChoiceValue.Against, choices') =>
          countLoop choices' vote_for (vote_against + 1) rest

/-- `count_votes` (blockchain.rs:85-113): run the tally loop from zero
counters; the observable result is the pair of final counters the source
prints (`vote_for`, `vote_against`). -/
def count_votes (choices : HMap) (transactions : List Transaction) :
    Except PanicKind (Nat × Nat) :=
  (countLoop choices 0 0 transactions).map (fun s => (s.2.1, s.2.2))

/-- `map_votes` (blockchain.rs:45-58): insert both `(votecode, choice)`
pairs of every ballot into a fresh map, `choice1` then `choice2`, ballots in
order; always returns `Ok`. -/
def map_votes (ballots : List Ballot) : Except PanicKind HMap :=
  .ok (ballots.foldl
    (fun choices ballot =>
      (HMap.insert (HMap.insert choices ballot.choice1.votecode ballot.choice1.choice)
        ballot.choice2.votecode ballot.choice2.choice))
    [])

/-! ### Spec-side Tally contract (for the refinement statement)

The second definition of the tally, written from the words of §4.6 of the
spec: "iterates transactions in ledger order; for each one that VoteDecoder
successfully decodes, look up its vote code in the index and, if present,
remove it and increment the counter for its associated choice." -/

/-- The vote code a transaction carries, as the spec's Tally sees it: a
transaction that fails any decode stage carries none. -/
def specDecode (t : Transaction) : Option VoteCode :=
  match transaction_to_votecode t with
  | .ok (some v) => v.to_votecode
  | _ => none

/-- One iteration of the spec's Tally: look the carried vote code up in the
index and, if present, remove it and increment the counter for its choice. -/
def specStep (st : HMap × Nat × Nat) (t : Transaction) : HMap × Nat × Nat :=
  match specDecode t with
  | none => st
  | some c =>
    match HMap.remove st.1 c with
    | (none, _) => st
    | (some ChoiceValue.For, m) => (m, st.2.1 + 1, st.2.2)
    | (some ChoiceValue.Against, m) => (m, st.2.1, st.2.2 + 1)

/-- The spec's `Tally.count`: fold the step over the transactions in ledger
order starting from the full index and zero counters. -/
def specCount (index : HMap) (transactions : List Transaction) : Nat × Nat :=
  (transactions.foldl specStep (index, 0, 0)).2

/-- A transaction is well formed for the tally when its decode does not
panic and, if it decodes to a payload, the payload's vote-code conversion
succeeds (so the `unwrap` at blockchain.rs:95 cannot fire). -/
def txWellFormed (t : Transaction) : Bool :=
  match transaction_to_votecode t with
  | .error _ => false
  | .ok none => true
  | .ok (some v) => (v.to_votecode).isSome

/-! ### Commit path: `CryptoHashData`, `pad`, the leaf sequence of `commit` -/

/-- Modelled from the spec: one voter-roster record (produced and validated
upstream, §6); the record is opaque to this core and is carried in the form
its YAML serialization produces. -/
structure VoterRecord where
  ser : Str
deriving DecidableEq, Repr

/-- Modelled from the spec: `serde_yaml::to_string` applied to one roster
record (an external serializer; records are opaque byte buffers to this
core, §3). -/
def serde_yaml_to_string (voter : VoterRecord) : Str := voter.ser

/-- Modelled from the spec: the serializable form of a ballot-grid row, with
its two selectable cell values (`col1`, `col3`). -/
structure SerializedRow where
  col1 : Str
  col3 : Str
deriving DecidableEq, Repr

/-- A ballot-grid row of a plane, carrying its two cell values. -/
structure Row where
  col1 : Str
  col3 : Str
deriving DecidableEq, Repr

/-- Modelled from the spec: `Row::serializable` (planes module, not under
`src/`) produces the row's two committed cell values. -/
def Row.serializable (row : Row) (numBallots : Nat) : SerializedRow :=
  let _ := numBallots
  ⟨row.col1, row.col3⟩

/-- `planes::Plane`, modelled with the rows `commit` reads. -/
structure Plane where
  rows : List Row
deriving DecidableEq, Repr

/-- `poll_configuration::PollConfiguration`, modelled with the fields
`commit` reads; the base64/YAML decoding of the roster (external
deserializers) is modelled by carrying the decoded records directly. -/
structure PollConfiguration where
  voter_roster : Option (List VoterRecord)
  audited_ballots : Option (List Str)
  num_ballots : Nat
deriving DecidableEq, Repr

/-- Modelled from the spec: a Merkle leaf of the merkle module (not under
`src/`).  Domain leaves carry the bytes the commit path pushes; the padding
filler is a distinguished constructor, so that the spec's "fixed, documented
filler value distinct from any valid domain leaf" (§4.2) holds by
construction: no data leaf can equal the filler. -/
inductive Leaf where
  | data (bytes : Str)
  | filler
deriving DecidableEq, Repr

/-- Modelled from the spec: `merkle::CryptoHashData` (not under `src/`), the
exclusive, single-writer ordered leaf sequence of §4.2. -/
abbrev CryptoHashData := List Leaf

/-- Modelled from the spec: `CryptoHashData::new` starts the sequence from
an initial vector of domain leaves. -/
def CryptoHashData.new (v : List Str) : CryptoHashData := v.map Leaf.data

/-- Modelled from the spec: `push` appends one domain leaf (§4.2). -/
def CryptoHashData.push (d : CryptoHashData) (x : Str) : CryptoHashData :=
  d ++ [Leaf.data x]

/-- Modelled from the spec: `push_vec` appends a vector of domain leaves
(§4.2). -/
def CryptoHashData.push_vec (d : CryptoHashData) (v : List Str) : CryptoHashData :=
  d ++ v.map Leaf.data

/-- Modelled from the spec: the "fixed, documented filler value distinct
from any valid domain leaf" that `pad` appends (§4.2): the distinguished
filler leaf, distinct from every `Leaf.data` leaf. -/
def padFiller : Leaf := Leaf.filler

/-- Whether `n` is a power of two (`2 ^ Nat.clog 2 n` is the smallest power
of two ≥ `n`, so `n` is a power of two exactly when it equals it). -/
def isPow2 (n : Nat) : Bool := decide (n = 2 ^ Nat.clog 2 n)

/-- Modelled from the spec: `CryptoHashData::pad` (merkle module, not under
`src/`) "extends the sequence, using a fixed, documented filler value ...,
until length is a power of two" and "must not alter existing leaf order". -/
def CryptoHashData.pad (d : CryptoHashData) : CryptoHashData :=
  if isPow2 d.length then d else CryptoHashData.pad (d ++ [padFiller])
termination_by 2 ^ Nat.clog 2 d.length - d.length
decreasing_by
  rename_i hnp
  simp only [isPow2, decide_eq_true_eq] at hnp
  simp only [List.length_append, List.length_cons, List.length_nil, Nat.zero_add]
  have hle : d.length ≤ 2 ^ Nat.clog 2 d.length := Nat.le_pow_clog (by norm_num) _
  have hlt : d.length < 2 ^ Nat.clog 2 d.length := lt_of_le_of_ne hle (fun h => hnp h)
  have hclog : Nat.clog 2 (d.length + 1) ≤ Nat.clog 2 d.length :=
    (Nat.le_pow_iff_clog_le (by norm_num)).mp hlt
  have hpow : 2 ^ Nat.clog 2 (d.length + 1) ≤ 2 ^ Nat.clog 2 d.length :=
    Nat.pow_le_pow_right (by norm_num) hclog
  omega

/-- The leaf sequence `commit` (blockchain.rs:217-255) assembles before
padding: the serialized roster records, then the audited ballots, then for
each plane row (planes in order, rows in order) the row's `col1` and `col3`
cell values; a missing roster or audited-ballot list is an `unwrap` panic. -/
def commit_leaves (pollconf : PollConfiguration) (planes : List Plane) :
    Except PanicKind CryptoHashData :=
  match pollconf.voter_roster with
  | none => .error .rosterNone
  | some records =>
    let roster : List Str := records.map serde_yaml_to_string
    match pollconf.audited_ballots with
    | none => .error .auditedNone
    | some audited_ballots =>
      let data := CryptoHashData.new roster
      let data := data.push_vec audited_ballots
      let data := planes.foldl
        (fun data plane =>
          plane.rows.foldl
            (fun data row =>
              let ser_row := row.serializable pollconf.num_ballots
              (data.push ser_row.col1).push ser_row.col3)
            data)
        data
      .ok data

/-! ### Anchor path: `NetworkConfig`, key parsing, `post`, `audit_votes`

The remote endpoints (ledger RPC, explorer API) are modelled as oracle
values passed in; a `none` response models a failing remote call, where the
source panics through `expect`.  Each operation also reports the ordered
trace of remote interactions it performed. -/

/-- `NetworkConfig` (blockchain.rs:30-35). -/
structure NetworkConfig where
  node : Str
  key : Str
  api : Str
deriving DecidableEq, Repr

/-- The order of the secp256k1 scalar group. -/
def secp256k1Order : Nat :=
  0xFFFFFFFFFFFFFFFFFFFFFFFFFFFFFFFEBAAEDCE6AF48A03BBFD25E8CD0364141

/-- Big-endian byte-sequence value. -/
def bytesToNat (bs : Str) : Nat := bs.foldl (fun acc b => acc * 256 + b) 0

/-- A validated secp256k1 secret key (library contract). -/
structure SecretKey where
  bytes : Str
deriving DecidableEq, Repr

/-- `SecretKey::from_slice` (secp256k1 library contract): accepts exactly 32
bytes encoding a scalar in `[1, order)`. -/
def SecretKey.from_slice (bs : Str) : Option SecretKey :=
  if bs.length = 32 ∧ 0 < bytesToNat bs ∧ bytesToNat bs < secp256k1Order then
    some ⟨bs⟩
  else none

/-- A ledger address. -/
structure Address where
  bytes : Str
deriving DecidableEq, Repr

/-- Modelled from the spec: `Key::address` of the web3 signing layer derives
the poll's own public address from the signing key (secp256k1 public key and
Keccak-256, library code); modelled as an abstract injection from the key. -/
def SecretKey.address (key : SecretKey) : Address := ⟨key.bytes⟩

/-- `web3::types::TransactionParameters`, with the fields `post` sets
(`toAddress` models the `to` field, a Lean keyword). -/
structure TransactionParameters where
  nonce : Option Nat
  toAddress : Option Address
  gas_price : Option Nat
  chain_id : Option Nat
  data : Str
  value : Nat
  gas : Nat
deriving DecidableEq, Repr

/-- The remote interactions `post` / `audit_votes` perform, in order. -/
inductive NetCall
  | getBlockNumber
  | estimateGas
  | signTransaction
  | sendRawTransaction
  | fetchTransactions
deriving DecidableEq, Repr

/-- Responses of the remote endpoints used by `post`; `none` models a
failing remote call. -/
structure PostOracle where
  blockNumber : Option Nat
  gas : Option Nat
  signedRaw : Option Str
  sendHash : Option Str
deriving DecidableEq, Repr

/-- The failures of the `Result`-returning operations of `blockchain.rs`:
the `?`-propagated hex / key errors, a panicking remote call, or a
propagated panic of the tally or commit code. -/
inductive OpError
  | hexError
  | keyError
  | netPanic (c : NetCall)
  | panic (p : PanicKind)
deriving DecidableEq, Repr

/-- The observable outcome of a successful `post`: the transaction
parameters it built and the reported transaction hash. -/
structure PostResult where
  params : TransactionParameters
  txHash : Str
deriving DecidableEq, Repr

/-- `post` (blockchain.rs:161-215): decode the configured key from hex,
validate it, derive the poll's own address, then (remote) fetch the latest
block number, estimate gas, build the anchor transaction with the
commitment root as its data, destination the poll's own address and value
zero, sign it and broadcast it.  Returns the outcome together with the
ordered trace of remote interactions performed. -/
def post (config : NetworkConfig) (data : Str) (o : PostOracle) :
    Except OpError PostResult × List NetCall :=
  match hexDecode config.key with
  | none => (.error .hexError, [])
  | some keyBytes =>
    match SecretKey.from_slice keyBytes with
    | none => (.error .keyError, [])
    | some key =>
      let pub_addr := key.address
      match o.blockNumber with
      | none => (.error (.netPanic .getBlockNumber), [.getBlockNumber])
      | some _block_number =>
        match o.gas with
        | none => (.error (.netPanic .estimateGas), [.getBlockNumber, .estimateGas])
        | some gas =>
          let params : TransactionParameters :=
            { nonce := none
              toAddress := some pub_addr
              gas_price := none
              chain_id := none
              data := data
              value := 0
              gas := gas }
          match o.signedRaw with
          | none =>
            (.error (.netPanic .signTransaction),
              [.getBlockNumber, .estimateGas, .signTransaction])
          | some _raw =>
            match o.sendHash with
            | none =>
              (.error (.netPanic .sendRawTransaction),
                [.getBlockNumber, .estimateGas, .signTransaction, .sendRawTransaction])
            | some h =>
              (.ok ⟨params, h⟩,
                [.getBlockNumber, .estimateGas, .signTransaction, .sendRawTransaction])

/-- `audit_votes` (blockchain.rs:132-151): decode and validate the
configured key, derive the poll's address, build the vote-code index, then
(remote) fetch the transactions of the poll's address and count the votes.
The oracle is the explorer response; `none` models a failing fetch. -/
def audit_votes (ballots : List Ballot) (config : NetworkConfig)
    (o : Option (List Transaction)) :
    Except OpError (Nat × Nat) × List NetCall :=
  match hexDecode config.key with
  | none => (.error .hexError, [])
  | some keyBytes =>
    match SecretKey.from_slice keyBytes with
    | none => (.error .keyError, [])
    | some key =>
      let _pub_addr := key.address
      match map_votes ballots with
      | .error p => (.error (.panic p), [])
      | .ok choices =>
        match o with
        | none => (.error (.netPanic .fetchTransactions), [.fetchTransactions])
        | some transactions =>
          match count_votes choices transactions with
          | .error p => (.error (.panic p), [.fetchTransactions])
          | .ok counts => (.ok counts, [.fetchTransactions])

/-- Whether the configured key is malformed: its hex decoding fails, or the
decoded bytes are rejected by `SecretKey::from_slice`. -/
def keyMalformed (config : NetworkConfig) : Bool :=
  match hexDecode config.key with
  | none => true
  | some kb => (SecretKey.from_slice kb).isNone

/-! ### Concrete inputs of the spec's examples -/

/-- The bytes of `"1111"`. -/
def code1111 : Str := [0x31, 0x31, 0x31, 0x31]

/-- The bytes of `"2222"`. -/
def code2222 : Str := [0x32, 0x32, 0x32, 0x32]

/-- The index `{"1111": For, "2222": Against}` of the spec's examples. -/
def exIndex : HMap := [(code1111, ChoiceValue.For), (code2222, ChoiceValue.Against)]

/-- A ledger transaction submitting vote code `"1111"`. -/
def tx1111 : Transaction := ⟨mkVoteInput code1111⟩

/-- A ledger transaction submitting vote code `"2222"`. -/
def tx2222 : Transaction := ⟨mkVoteInput code2222⟩

/-- The single ballot `{serial: 1, "1111" → For, "2222" → Against}` of the
spec's index-construction example. -/
def exBallot : Ballot :=
  { serial := 1
    choice1 := { votecode := code1111, choice := ChoiceValue.For }
    choice2 := { votecode := code2222, choice := ChoiceValue.Against } }

/-- A transaction whose JSON payload carries the degenerate empty vote code
(decodes to a payload whose vote-code conversion fails). -/
def txEmptyCode : Transaction := ⟨mkVoteInput []⟩

/-- A configuration with a well-formed key: 64 hex characters decoding to
the 32-byte scalar 1. -/
def exConfig : NetworkConfig :=
  { node := [], key := List.replicate 62 0x30 ++ [0x30, 0x31], api := [] }

/-- A configuration whose key is not hex (`"zz"`). -/
def badKeyConfig : NetworkConfig :=
  { node := [], key := [0x7A, 0x7A], api := [] }

/-- An example commitment root to anchor. -/
def exRoot : Str := [0xAB, 0xCD]

/-- An oracle on which every remote call of `post` succeeds. -/
def exOracle : PostOracle :=
  { blockNumber := some 100, gas := some 21000,
    signedRaw := some [0x01], sendHash := some [0x99] }

/-- The `(votecode, choice)` pairs of a ballot list in insertion order:
`choice1` then `choice2` of each ballot, ballots in order (the write
sequence `map_votes` performs). -/
def ballotEntries (ballots : List Ballot) : List (VoteCode × ChoiceValue) :=
  ballots.flatMap (fun b =>
    [(b.choice1.votecode, b.choice1.choice), (b.choice2.votecode, b.choice2.choice)])

/-- The hex-decoded bytes of `exConfig.key`: the 32-byte scalar 1. -/
def exKeyBytes : Str := List.replicate 31 0 ++ [1]

/-- The outcome `post exConfig exRoot exOracle` produces. -/
def exPostResult : PostResult :=
  { params :=
      { nonce := none
        toAddress := some ⟨exKeyBytes⟩
        gas_price := none
        chain_id := none
        data := exRoot
        value := 0
        gas := 21000 }
    txHash := [0x99] }

/-- A small poll configuration for the commit example: one roster record,
one audited ballot. -/
def exPollConf : PollConfiguration :=
  { voter_roster := some [⟨[0x61]⟩]
    audited_ballots := some [[0x62]]
    num_ballots := 1 }

/-- One plane with one row for the commit example. -/
def exPlanes : List Plane := [⟨[⟨[0x63], [0x64]⟩]⟩]

/-- A three-leaf sequence for the padding example. -/
def exLeaves : CryptoHashData := [Leaf.data [0x61], Leaf.data [0x62], Leaf.data [0x63]]

/-! ### Helper lemmas about the `HashMap` model -/

theorem HMap.lookup_filter_self (c : VoteCode) (m : HMap) :
    HMap.lookup c (m.filter (fun p => decide (p.1 ≠ c))) = none := by
  induction m with
  | nil => rfl
  | cons p rest ih =>
    simp only [ne_eq, decide_not] at ih ⊢
    by_cases h : p.1 = c
    · simp [List.filter_cons, h, ih]
    · simp [List.filter_cons, h, HMap.lookup, ih]

theorem HMap.length_filter_lt {c : VoteCode} {v : ChoiceValue} :
    ∀ m : HMap, HMap.lookup c m = some v →
      (m.filter (fun p => decide (p.1 ≠ c))).length < m.length := by
  intro m
  induction m with
  | nil => intro h; simp [HMap.lookup] at h
  | cons p rest ih =>
    intro h
    simp only [ne_eq, decide_not] at ih ⊢
    by_cases hp : p.1 = c
    · have hle := List.length_filter_le
        (fun p : VoteCode × ChoiceValue => !decide (p.1 = c)) rest
      simp [List.filter_cons, hp]
      omega
    · simp only [HMap.lookup, if_neg hp] at h
      have hlt := ih h
      simp [List.filter_cons, hp]
      omega

theorem HMap.lookup_map_replace (k c : VoteCode) (v : ChoiceValue) (m : HMap) :
    HMap.lookup c (m.map (fun p => if p.1 = k then (k, v) else p)) =
      if k = c then (if (HMap.lookup k m).isSome then some v else none)
      else HMap.lookup c m := by
  induction m with
  | nil => by_cases h : k = c <;> simp [HMap.lookup, h]
  | cons p rest ih =>
    by_cases hp : p.1 = k
    · by_cases hk : k = c
      · subst hk
        simp [HMap.lookup, hp, ih]
      · simp only [List.map_cons, if_pos hp, HMap.lookup, hp, if_neg hk, ih]
        have hpc : ¬ p.1 = c := by rw [hp]; exact hk
        simp [hpc, hk]
    · by_cases hc : p.1 = c
      · have hkc : ¬ k = c := fun h => hp (by rw [hc, h])
        have hck : ¬ c = k := fun h => hkc h.symm
        simp [HMap.lookup, hp, hc, hkc, hck]
      · simp [HMap.lookup, hp, hc, ih]

theorem HMap.lookup_append_single (m : HMap) (k c : VoteCode) (v : ChoiceValue) :
    HMap.lookup c (m ++ [(k, v)]) =
      match HMap.lookup c m with
      | some w => some w
      | none => if k = c then some v else none := by
  induction m with
  | nil => simp [HMap.lookup]
  | cons p rest ih =>
    by_cases hc : p.1 = c
    · simp [HMap.lookup, hc]
    · simp only [List.cons_append, HMap.lookup, if_neg hc]
      exact ih

theorem HMap.lookup_insert (m : HMap) (k c : VoteCode) (v : ChoiceValue) :
    HMap.lookup c (HMap.insert m k v) =
      if k = c then some v else HMap.lookup c m := by
  unfold HMap.insert
  by_cases hs : (HMap.lookup k m).isSome
  · rw [if_pos hs, HMap.lookup_map_replace]
    simp [hs]
  · rw [if_neg hs, HMap.lookup_append_single]
    have hnone : HMap.lookup k m = none := by
      cases h : HMap.lookup k m
      · rfl
      · rw [h] at hs; simp at hs
    cases h : HMap.lookup c m
    · simp
    · by_cases hk : k = c
      · rw [hk, h] at hnone; cases hnone
      · simp [hk]

theorem HMap.length_insert_le (m : HMap) (k : VoteCode) (v : ChoiceValue) :
    (HMap.insert m k v).length ≤ m.length + 1 := by
  unfold HMap.insert
  split
  · simp
  · simp

/-! ### Helper lemmas about `pad` -/

theorem clog2_succ_of_not_pow2 {n : Nat} (h : n ≠ 2 ^ Nat.clog 2 n) :
    Nat.clog 2 (n + 1) = Nat.clog 2 n := by
  have hle : n ≤ 2 ^ Nat.clog 2 n := Nat.le_pow_clog (by norm_num) n
  have hlt : n < 2 ^ Nat.clog 2 n := lt_of_le_of_ne hle h
  exact Nat.le_antisymm
    ((Nat.le_pow_iff_clog_le (by norm_num)).mp hlt)
    (Nat.clog_mono_right 2 (Nat.le_succ n))

theorem pad_eq_aux : ∀ (fuel : Nat) (d : CryptoHashData),
    2 ^ Nat.clog 2 d.length - d.length ≤ fuel →
    CryptoHashData.pad d =
      d ++ List.replicate (2 ^ Nat.clog 2 d.length - d.length) padFiller := by
  intro fuel
  induction fuel with
  | zero =>
    intro d h
    have hle : d.length ≤ 2 ^ Nat.clog 2 d.length := Nat.le_pow_clog (by norm_num) _
    have heq : d.length = 2 ^ Nat.clog 2 d.length := by omega
    rw [CryptoHashData.pad]
    rw [if_pos (show isPow2 d.length = true from decide_eq_true heq)]
    have hz : 2 ^ Nat.clog 2 d.length - d.length = 0 := by omega
    rw [hz]
    simp
  | succ fuel ih =>
    intro d h
    rw [CryptoHashData.pad]
    by_cases hp : d.length = 2 ^ Nat.clog 2 d.length
    · rw [if_pos (show isPow2 d.length = true from decide_eq_true hp)]
      have hz : 2 ^ Nat.clog 2 d.length - d.length = 0 := by omega
      rw [hz]
      simp
    · have hnp : isPow2 d.length = false := decide_eq_false hp
      rw [if_neg (by rw [hnp]; exact Bool.false_ne_true)]
      have hle : d.length ≤ 2 ^ Nat.clog 2 d.length := Nat.le_pow_clog (by norm_num) _
      have hlt : d.length < 2 ^ Nat.clog 2 d.length := lt_of_le_of_ne hle hp
      have hclog : Nat.clog 2 (d.length + 1) = Nat.clog 2 d.length :=
        clog2_succ_of_not_pow2 hp
      have hlen : (d ++ [padFiller]).length = d.length + 1 := by simp
      have hfuel : 2 ^ Nat.clog 2 (d ++ [padFiller]).length -
          (d ++ [padFiller]).length ≤ fuel := by
        rw [hlen, hclog]; omega
      rw [ih (d ++ [padFiller]) hfuel, hlen, hclog, List.append_assoc]
      congr 1
      have : 2 ^ Nat.clog 2 d.length - d.length =
          (2 ^ Nat.clog 2 d.length - (d.length + 1)) + 1 := by omega
      rw [this, List.replicate_succ]
      rfl

/-- The closed form of `pad`: append exactly enough filler entries to reach
the enclosing power of two. -/
theorem pad_spec (d : CryptoHashData) :
    CryptoHashData.pad d =
      d ++ List.replicate (2 ^ Nat.clog 2 d.length - d.length) padFiller :=
  pad_eq_aux _ d le_rfl

/-! ### Helper lemmas about `map_votes` and the tally loop -/

theorem map_votes_eq_foldl_entries : ∀ (ballots : List Ballot) (m : HMap),
    ballots.foldl
      (fun choices ballot =>
        HMap.insert (HMap.insert choices ballot.choice1.votecode ballot.choice1.choice)
          ballot.choice2.votecode ballot.choice2.choice) m
    = (ballotEntries ballots).foldl (fun m p => HMap.insert m p.1 p.2) m := by
  intro ballots
  induction ballots with
  | nil => intro m; rfl
  | cons b bs ih =>
    intro m
    simp only [List.foldl_cons, ballotEntries, List.flatMap_cons, List.cons_append,
      List.nil_append, List.foldl_append] at *
    exact ih _

theorem lookup_foldl_insert (c : VoteCode) :
    ∀ (entries : List (VoteCode × ChoiceValue)) (m : HMap),
    HMap.lookup c (entries.foldl (fun m p => HMap.insert m p.1 p.2) m) =
      match entries.reverse.find? (fun p => decide (p.1 = c)) with
      | some p => some p.2
      | none => HMap.lookup c m := by
  intro entries
  induction entries with
  | nil => intro m; rfl
  | cons e es ih =>
    intro m
    simp only [List.foldl_cons, List.reverse_cons, List.find?_append]
    rw [ih]
    cases hf : es.reverse.find? (fun p => decide (p.1 = c)) with
    | some p => simp
    | none =>
      simp only [Option.none_or]
      rw [HMap.lookup_insert]
      by_cases he : e.1 = c
      · simp [List.find?, he]
      · simp [List.find?, he]

theorem length_foldl_insert_le : ∀ (entries : List (VoteCode × ChoiceValue)) (m : HMap),
    ((entries.foldl (fun m p => HMap.insert m p.1 p.2) m)).length ≤
      m.length + entries.length := by
  intro entries
  induction entries with
  | nil => intro m; simp
  | cons e es ih =>
    intro m
    simp only [List.foldl_cons, List.length_cons]
    calc ((es.foldl (fun m p => HMap.insert m p.1 p.2) (HMap.insert m e.1 e.2))).length
        ≤ (HMap.insert m e.1 e.2).length + es.length := ih _
      _ ≤ m.length + 1 + es.length := by
          have := HMap.length_insert_le m e.1 e.2; omega
      _ = m.length + (es.length + 1) := by omega

theorem ballotEntries_length (ballots : List Ballot) :
    (ballotEntries ballots).length = 2 * ballots.length := by
  induction ballots with
  | nil => rfl
  | cons b bs ih => simp [ballotEntries, List.flatMap_cons] at *; omega

theorem countLoop_eq_foldl_specStep :
    ∀ (txs : List Transaction) (m : HMap) (f a : Nat),
    (∀ t ∈ txs, txWellFormed t = true) →
    countLoop m f a txs = .ok (txs.foldl specStep (m, f, a)) := by
  intro txs
  induction txs with
  | nil => intro m f a _; rfl
  | cons t ts ih =>
    intro m f a h
    have ht : txWellFormed t = true := h t (by simp)
    have hts : ∀ t' ∈ ts, txWellFormed t' = true := fun t' h' => h t' (by simp [h'])
    unfold txWellFormed at ht
    simp only [countLoop, List.foldl_cons, specStep, specDecode]
    cases httv : transaction_to_votecode t with
    | error p => rw [httv] at ht; simp at ht
    | ok ov =>
      cases ov with
      | none => simp only; exact ih m f a hts
      | some v =>
        rw [httv] at ht
        simp only [Option.isSome_iff_exists] at ht
        obtain ⟨c, hc⟩ := ht
        simp only [hc]
        cases hl : HMap.lookup c m with
        | none =>
          simp only [HMap.remove, hl]
          exact ih m f a hts
        | some ch =>
          cases ch with
          | For =>
            simp only [HMap.remove, hl]
            exact ih _ _ _ hts
          | Against =>
            simp only [HMap.remove, hl]
            exact ih _ _ _ hts

theorem countLoop_append :
    ∀ (xs ys : List Transaction) (m : HMap) (f a : Nat),
    countLoop m f a (xs ++ ys) =
      match countLoop m f a xs with
      | .ok s => countLoop s.1 s.2.1 s.2.2 ys
      | .error p => .error p := by
  intro xs
  induction xs with
  | nil => intro ys m f a; rfl
  | cons t ts ih =>
    intro ys m f a
    simp only [List.cons_append, countLoop]
    cases httv : transaction_to_votecode t with
    | error p => rfl
    | ok ov =>
      cases ov with
      | none => dsimp only; exact ih ys m f a
      | some v =>
        dsimp only
        cases hc : v.to_votecode with
        | none => rfl
        | some c =>
          dsimp only
          cases hl : HMap.lookup c m with
          | none => simp only [HMap.remove, hl]; exact ih ys m f a
          | some ch =>
            cases ch with
            | For => simp only [HMap.remove, hl]; exact ih ys _ _ _
            | Against => simp only [HMap.remove, hl]; exact ih ys _ _ _

theorem countLoop_le :
    ∀ (txs : List Transaction) (m : HMap) (f a : Nat) (s : HMap × Nat × Nat),
    countLoop m f a txs = .ok s →
    s.2.1 + s.2.2 + s.1.length ≤ f + a + m.length ∧
    s.2.1 + s.2.2 ≤ f + a + txs.length := by
  intro txs
  induction txs with
  | nil =>
    intro m f a s h
    simp only [countLoop, Except.ok.injEq] at h
    subst h
    simp
  | cons t ts ih =>
    intro m f a s h
    simp only [countLoop] at h
    cases httv : transaction_to_votecode t with
    | error p => rw [httv] at h; cases h
    | ok ov =>
      rw [httv] at h
      cases ov with
      | none =>
        dsimp only at h
        have := ih m f a s h
        simp only [List.length_cons]
        omega
      | some v =>
        dsimp only at h
        cases hc : v.to_votecode with
        | none => rw [hc] at h; cases h
        | some c =>
          rw [hc] at h
          dsimp only at h
          cases hl : HMap.lookup c m with
          | none =>
            simp only [HMap.remove, hl] at h
            have := ih m f a s h
            simp only [List.length_cons]
            omega
          | some ch =>
            have hflt := HMap.length_filter_lt m hl
            cases ch with
            | For =>
              simp only [HMap.remove, hl] at h
              have := ih _ _ _ s h
              simp only [List.length_cons]
              omega
            | Against =>
              simp only [HMap.remove, hl] at h
              have := ih _ _ _ s h
              simp only [List.length_cons]
              omega

/-! ### Helper lemmas about the commit leaf fold -/

theorem rows_foldl_push (nb : Nat) :
    ∀ (rows : List Row) (d : CryptoHashData),
    rows.foldl
      (fun d row =>
        let ser_row := row.serializable nb
        (d.push ser_row.col1).push ser_row.col3) d
    = d ++ rows.flatMap (fun row =>
        [Leaf.data (row.serializable nb).col1,
         Leaf.data (row.serializable nb).col3]) := by
  intro rows
  induction rows with
  | nil => intro d; simp
  | cons row rest ih =>
    intro d
    rw [List.foldl_cons, ih]
    simp [CryptoHashData.push, List.flatMap_cons, List.append_assoc]

theorem planes_foldl_push (nb : Nat) :
    ∀ (planes : List Plane) (d : CryptoHashData),
    planes.foldl
      (fun d plane =>
        plane.rows.foldl
          (fun d row =>
            let ser_row := row.serializable nb
            (d.push ser_row.col1).push ser_row.col3) d) d
    = d ++ planes.flatMap (fun plane => plane.rows.flatMap (fun row =>
        [Leaf.data (row.serializable nb).col1,
         Leaf.data (row.serializable nb).col3])) := by
  intro planes
  induction planes with
  | nil => intro d; simp
  | cons plane rest ih =>
    intro d
    rw [List.foldl_cons, ih, rows_foldl_push]
    simp [List.flatMap_cons, List.append_assoc]

/-! ### The claims -/

/-- Claim C1: for every index and every transaction sequence, the tally
counts each vote code at most once.  General part: for any loop state, a
transaction carrying vote code `c` leaves both counters (and the index)
unchanged when `c` is absent from the index, and after the loop processes a
transaction carrying `c` the resulting index no longer contains `c` (so a
later transaction with the same code contributes to neither counter).
Concrete part: with index `{"1111": For, "2222": Against}` and two
transactions both carrying `"1111"`, the tally reports `for = 1`, not 2. -/
theorem claim_C1_theorem :
    (∀ (m : HMap) (f a : Nat) (t : Transaction) (v : SubmittedVote) (c : VoteCode),
      transaction_to_votecode t = .ok (some v) →
      v.to_votecode = some c →
      (HMap.lookup c m = none → countLoop m f a [t] = .ok (m, f, a)) ∧
      (∀ m' f' a', countLoop m f a [t] = .ok (m', f', a') →
        HMap.lookup c m' = none)) ∧
    count_votes exIndex [tx1111, tx1111] = .ok (1, 0) := by
  constructor
  · intro m f a t v c h1 h2
    constructor
    · intro hl
      simp only [countLoop, h1, h2, HMap.remove, hl]
    · intro m' f' a' hstep
      simp only [countLoop, h1, h2, HMap.remove] at hstep
      cases hl : HMap.lookup c m with
      | none =>
        rw [hl] at hstep
        simp only [Except.ok.injEq] at hstep
        obtain ⟨hm, _, _⟩ := Prod.mk.injEq .. ▸ hstep
        rw [← hm]
        exact hl
      | some ch =>
        rw [hl] at hstep
        cases ch with
        | For =>
          simp only [Except.ok.injEq] at hstep
          obtain ⟨hm, _, _⟩ := Prod.mk.injEq .. ▸ hstep
          rw [← hm]
          exact HMap.lookup_filter_self c m
        | Against =>
          simp only [Except.ok.injEq] at hstep
          obtain ⟨hm, _, _⟩ := Prod.mk.injEq .. ▸ hstep
          rw [← hm]
          exact HMap.lookup_filter_self c m
  · decide

/-- Claim C1 witness: a transaction carrying `"1111"` against an index that
does not contain `"1111"` changes nothing. -/
theorem claim_C1_witness :
    countLoop [(code2222, ChoiceValue.Against)] 0 0 [tx1111] =
      .ok ([(code2222, ChoiceValue.Against)], 0, 0) :=
  (claim_C1_theorem.1 [(code2222, ChoiceValue.Against)] 0 0 tx1111
    ⟨code1111⟩ code1111 (by decide) (by decide)).1 (by decide)

/-- Claim C2 counterexample: the claim asserts the decoder yields "no vote"
for every input string, including inputs shorter than two characters; on
the empty input the slice `&transaction.input[2..]` panics instead. -/
theorem claim_C2_counterexample :
    transaction_to_votecode ⟨[]⟩ = .error PanicKind.inputSlice ∧
    transaction_to_votecode ⟨[]⟩ ≠ .ok none := by decide

/-- Claim C2 (amended): for every input whose byte length is at least two
and whose byte at position 2 (when it exists) is not a UTF-8 continuation
byte — i.e. whenever the `&input[2..]` prefix strip does not panic — the
decoder is total, and any stage failure (bad hex, invalid UTF-8, malformed
JSON) yields "no vote" (`none`). -/
theorem claim_C2_theorem (input : Str) (h2 : 2 ≤ input.length)
    (hb : input.length = 2 ∨ isUtf8Cont (input.getD 2 0) = false) :
    (∃ r, transaction_to_votecode ⟨input⟩ = .ok r) ∧
    (hexDecode (input.drop 2) = none → transaction_to_votecode ⟨input⟩ = .ok none) ∧
    (∀ bs, hexDecode (input.drop 2) = some bs → validUtf8 bs = false →
      transaction_to_votecode ⟨input⟩ = .ok none) ∧
    (∀ bs, hexDecode (input.drop 2) = some bs → validUtf8 bs = true →
      serde_json_from_str bs = none → transaction_to_votecode ⟨input⟩ = .ok none) := by
  have hnot1 : ¬ (input.length < 2) := by omega
  have hnot2 : ¬ (2 < input.length ∧ isUtf8Cont (input.getD 2 0) = true) := by
    rintro ⟨hgt, hc⟩
    rcases hb with h | h
    · omega
    · rw [h] at hc; cases hc
  have hstep : transaction_to_votecode ⟨input⟩ =
      (match hexDecode (input.drop 2) with
      | none => .ok none
      | some bytes =>
        match string_from_utf8 bytes with
        | none => .ok none
        | some s =>
          match serde_json_from_str s with
          | none => .ok none
          | some vote => .ok (some vote)) := by
    unfold transaction_to_votecode
    dsimp only
    rw [if_neg hnot1, if_neg hnot2]
  refine ⟨?_, ?_, ?_, ?_⟩
  · rw [hstep]
    cases hhex : hexDecode (input.drop 2) with
    | none => exact ⟨none, rfl⟩
    | some bs =>
      by_cases hv : validUtf8 bs = true
      · cases hj : serde_json_from_str bs with
        | none => exact ⟨none, by simp [string_from_utf8, hv, hj]⟩
        | some vote => exact ⟨some vote, by simp [string_from_utf8, hv, hj]⟩
      · exact ⟨none, by simp [string_from_utf8, hv]⟩
  · intro hhex
    rw [hstep, hhex]
  · intro bs hhex hv
    rw [hstep, hhex]
    simp [string_from_utf8, hv]
  · intro bs hhex hv hj
    rw [hstep, hhex]
    simp [string_from_utf8, hv, hj]

/-- Claim C2 witness: the invalid-hex input `"0xzz"` decodes to "no vote"
without panicking. -/
theorem claim_C2_witness :
    transaction_to_votecode ⟨[0x30, 0x78, 0x7A, 0x7A]⟩ = .ok none :=
  (claim_C2_theorem [0x30, 0x78, 0x7A, 0x7A] (by decide)
    (Or.inr (by decide))).2.1 (by decide)

/-- Claim C3: on transaction sequences on which no decode stage panics (the
tally's implicit assumption, cf. C2 and C9), `count_votes` returns exactly
the pair of final per-choice counters that the spec's `Tally.count`
contract computes by iterating the transactions in ledger order and
incrementing the counter of each newly matched vote code. -/
theorem claim_C3_theorem (index : HMap) (txs : List Transaction)
    (h : ∀ t ∈ txs, txWellFormed t = true) :
    count_votes index txs = .ok (specCount index txs) := by
  unfold count_votes specCount
  rw [countLoop_eq_foldl_specStep txs index 0 0 h]
  rfl

/-- Claim C3 witness: the end-to-end example, one transaction per code. -/
theorem claim_C3_witness :
    count_votes exIndex [tx1111, tx2222] = .ok (specCount exIndex [tx1111, tx2222]) :=
  claim_C3_theorem exIndex [tx1111, tx2222] (by decide)

/-- Claim C4: `map_votes` always succeeds; it inserts both `(code, choice)`
pairs of every ballot, the index holds at most `2 × |ballots|` entries, and
each code maps to exactly the choice of the last write for that code
(later insertions silently overwrite earlier ones).  Concretely, the single
ballot `{serial: 1, "1111" → For, "2222" → Against}` yields exactly
`{"1111": For, "2222": Against}`. -/
theorem claim_C4_theorem :
    (∀ ballots : List Ballot, ∃ index : HMap,
      map_votes ballots = .ok index ∧
      index.length ≤ 2 * ballots.length ∧
      (∀ c, HMap.lookup c index =
        Option.map Prod.snd
          ((ballotEntries ballots).reverse.find? (fun p => decide (p.1 = c))))) ∧
    (∃ index : HMap, map_votes [exBallot] = .ok index ∧
      HMap.lookup code1111 index = some ChoiceValue.For ∧
      HMap.lookup code2222 index = some ChoiceValue.Against ∧
      index.length = 2) := by
  constructor
  · intro ballots
    refine ⟨_, rfl, ?_, ?_⟩
    · rw [map_votes_eq_foldl_entries]
      have := length_foldl_insert_le (ballotEntries ballots) []
      rw [ballotEntries_length] at this
      simpa using this
    · intro c
      rw [map_votes_eq_foldl_entries, lookup_foldl_insert]
      cases hf : (ballotEntries ballots).reverse.find? (fun p => decide (p.1 = c)) with
      | none => rfl
      | some p => rfl
  · exact ⟨_, rfl, by decide, by decide, by decide⟩

/-- Claim C5: for every poll configuration carrying a roster and audited
ballots, `commit` builds the Merkle leaf sequence in the fixed order:
serialized roster records first, then the audited ballots, then the
per-row ballot-grid cell values (`col1` then `col3` per row, planes and
rows in order); the sequence is a pure function of the inputs, hence
stable and reproducible. -/
theorem claim_C5_theorem (pollconf : PollConfiguration) (planes : List Plane)
    (records : List VoterRecord) (ab : List Str)
    (hr : pollconf.voter_roster = some records)
    (hb : pollconf.audited_ballots = some ab) :
    commit_leaves pollconf planes =
      .ok ((records.map serde_yaml_to_string).map Leaf.data ++ ab.map Leaf.data ++
        planes.flatMap (fun plane => plane.rows.flatMap (fun row =>
          [Leaf.data (row.serializable pollconf.num_ballots).col1,
           Leaf.data (row.serializable pollconf.num_ballots).col3]))) := by
  unfold commit_leaves
  rw [hr, hb]
  dsimp only
  rw [planes_foldl_push]
  simp [CryptoHashData.new, CryptoHashData.push_vec, List.append_assoc]

/-- Claim C5 witness: a one-record roster, one audited ballot and one
single-row plane produce the four leaves in the documented order. -/
theorem claim_C5_witness :
    commit_leaves exPollConf exPlanes =
      .ok [Leaf.data [0x61], Leaf.data [0x62], Leaf.data [0x63], Leaf.data [0x64]] := by
  have h := claim_C5_theorem exPollConf exPlanes [⟨[0x61]⟩] [[0x62]] rfl rfl
  simpa using h

/-- Claim C6: after `pad()` the length is the smallest power of two ≥ the
original length `n` (it equals `2 ^ Nat.clog 2 n`, which is a bound below
every power of two ≥ `n`), the first `n` entries are the original sequence
unchanged and in order, and every filler entry is the fixed filler value —
a value distinct from any valid domain leaf: the filler equals no data
leaf, and no leaf the commit path ever builds equals the filler. -/
theorem claim_C6_theorem :
    (∀ d : CryptoHashData,
      (CryptoHashData.pad d).length = 2 ^ Nat.clog 2 d.length ∧
      d.length ≤ 2 ^ Nat.clog 2 d.length ∧
      (∀ m, d.length ≤ 2 ^ m → Nat.clog 2 d.length ≤ m) ∧
      (CryptoHashData.pad d).take d.length = d ∧
      (CryptoHashData.pad d).drop d.length =
        List.replicate (2 ^ Nat.clog 2 d.length - d.length) padFiller) ∧
    (∀ bytes : Str, padFiller ≠ Leaf.data bytes) ∧
    (∀ (pollconf : PollConfiguration) (planes : List Plane)
      (leaves : CryptoHashData),
      commit_leaves pollconf planes = .ok leaves →
      ∀ l ∈ leaves, l ≠ padFiller) := by
  refine ⟨?_, ?_, ?_⟩
  · intro d
    have hle : d.length ≤ 2 ^ Nat.clog 2 d.length := Nat.le_pow_clog (by norm_num) _
    refine ⟨?_, hle, ?_, ?_, ?_⟩
    · rw [pad_spec]
      simp only [List.length_append, List.length_replicate]
      omega
    · intro m hm
      exact (Nat.le_pow_iff_clog_le (by norm_num)).mp hm
    · rw [pad_spec]
      exact List.take_left d _
    · rw [pad_spec]
      exact List.drop_left d _
  · intro bytes h
    cases h
  · intro pollconf planes leaves h l hl hcon
    subst hcon
    unfold commit_leaves at h
    cases hr : pollconf.voter_roster with
    | none => rw [hr] at h; simp at h
    | some records =>
      rw [hr] at h
      dsimp only at h
      cases hb : pollconf.audited_ballots with
      | none => rw [hb] at h; simp at h
      | some ab =>
        rw [hb] at h
        dsimp only at h
        rw [planes_foldl_push] at h
        simp only [Except.ok.injEq] at h
        subst h
        simp [padFiller, CryptoHashData.new, CryptoHashData.push_vec] at hl

/-- Claim C6 witness: three leaves pad to four — the original three
unchanged followed by one filler — 2 is the exponent of the enclosing power
of two, the filler differs from a data leaf, and a concrete committed leaf
differs from the filler. -/
theorem claim_C6_witness :
    (CryptoHashData.pad exLeaves).length = 2 ^ Nat.clog 2 exLeaves.length ∧
    (CryptoHashData.pad exLeaves).take exLeaves.length = exLeaves ∧
    Nat.clog 2 exLeaves.length ≤ 2 ∧
    padFiller ≠ Leaf.data [] ∧
    Leaf.data [0x61] ≠ padFiller :=
  ⟨(claim_C6_theorem.1 exLeaves).1,
   (claim_C6_theorem.1 exLeaves).2.2.2.1,
   (claim_C6_theorem.1 exLeaves).2.2.1 2 (by decide),
   claim_C6_theorem.2.1 [],
   claim_C6_theorem.2.2 exPollConf exPlanes
     [Leaf.data [0x61], Leaf.data [0x62], Leaf.data [0x63], Leaf.data [0x64]]
     (by decide) (Leaf.data [0x61]) (by decide)⟩

/-- Claim C7: whatever the anchor operation reports on success, the
transaction it built carries the commitment root in its data field, the
poll's own address (derived from the signing key) as destination, and a
transferred value of zero. -/
theorem claim_C7_theorem (config : NetworkConfig) (data : Str) (o : PostOracle)
    (r : PostResult) (trace : List NetCall)
    (h : post config data o = (.ok r, trace)) :
    r.params.data = data ∧ r.params.value = 0 ∧
    ∃ kb key, hexDecode config.key = some kb ∧
      SecretKey.from_slice kb = some key ∧
      r.params.toAddress = some key.address := by
  unfold post at h
  cases hhex : hexDecode config.key with
  | none => rw [hhex] at h; simp at h
  | some kb =>
    rw [hhex] at h
    dsimp only at h
    cases hsk : SecretKey.from_slice kb with
    | none => rw [hsk] at h; simp at h
    | some key =>
      rw [hsk] at h
      dsimp only at h
      cases hbn : o.blockNumber with
      | none => rw [hbn] at h; simp at h
      | some bn =>
        rw [hbn] at h
        dsimp only at h
        cases hg : o.gas with
        | none => rw [hg] at h; simp at h
        | some gas =>
          rw [hg] at h
          dsimp only at h
          cases hs : o.signedRaw with
          | none => rw [hs] at h; simp at h
          | some raw =>
            rw [hs] at h
            dsimp only at h
            cases hsend : o.sendHash with
            | none => rw [hsend] at h; simp at h
            | some hh =>
              rw [hsend] at h
              dsimp only at h
              simp only [Prod.mk.injEq, Except.ok.injEq] at h
              obtain ⟨hr, -⟩ := h
              subst hr
              exact ⟨rfl, rfl, kb, key, rfl, hsk, rfl⟩

/-- Claim C7 witness: the concrete successful anchor of the example
configuration carries the example root, value zero, and the address
derived from the configured key. -/
theorem claim_C7_witness :
    exPostResult.params.data = exRoot ∧ exPostResult.params.value = 0 ∧
    hexDecode exConfig.key = some exKeyBytes ∧
    SecretKey.from_slice exKeyBytes = some ⟨exKeyBytes⟩ ∧
    exPostResult.params.toAddress = some (SecretKey.address ⟨exKeyBytes⟩) := by
  have h := claim_C7_theorem exConfig exRoot exOracle exPostResult
    [.getBlockNumber, .estimateGas, .signTransaction, .sendRawTransaction]
    (by decide)
  exact ⟨h.1, h.2.1, by decide, by decide, by decide⟩

/-- Claim C8: when the configured key is malformed (invalid hex, or bytes
rejected by the key parser), both the anchor operation and the audit
operation fail with an error and perform no network interaction at all
(their remote-call trace is empty), so the operation aborts with no
partial result. -/
theorem claim_C8_theorem (config : NetworkConfig) (root : Str) (o : PostOracle)
    (ballots : List Ballot) (txso : Option (List Transaction))
    (h : keyMalformed config = true) :
    (∃ e, (post config root o).1 = .error e) ∧ (post config root o).2 = [] ∧
    (∃ e, (audit_votes ballots config txso).1 = .error e) ∧
    (audit_votes ballots config txso).2 = [] := by
  unfold keyMalformed at h
  cases hhex : hexDecode config.key with
  | none =>
    unfold post audit_votes
    rw [hhex]
    exact ⟨⟨.hexError, rfl⟩, rfl, ⟨.hexError, rfl⟩, rfl⟩
  | some kb =>
    rw [hhex] at h
    dsimp only at h
    have hsk : SecretKey.from_slice kb = none := by
      cases hx : SecretKey.from_slice kb
      · rfl
      · rw [hx] at h; simp at h
    unfold post audit_votes
    rw [hhex]
    dsimp only
    rw [hsk]
    exact ⟨⟨.keyError, rfl⟩, rfl, ⟨.keyError, rfl⟩, rfl⟩

/-- Claim C8 witness: the configuration whose key is the non-hex string
`"zz"` performs no remote call in either operation. -/
theorem claim_C8_witness :
    (post badKeyConfig exRoot exOracle).2 = [] ∧
    (audit_votes [] badKeyConfig none).2 = [] := by
  have h := claim_C8_theorem badKeyConfig exRoot exOracle [] none (by decide)
  exact ⟨h.2.1, h.2.2.2⟩

/-- Claim C9: if some transaction decodes to a payload whose vote-code
conversion fails, the `unwrap` at blockchain.rs:95 aborts the whole tally
(the loop returns the panic instead of skipping that transaction),
regardless of what follows. -/
theorem claim_C9_theorem (choices : HMap) (txs1 txs2 : List Transaction)
    (t : Transaction) (v : SubmittedVote) (s : HMap × Nat × Nat)
    (h1 : countLoop choices 0 0 txs1 = .ok s)
    (h2 : transaction_to_votecode t = .ok (some v))
    (h3 : v.to_votecode = none) :
    count_votes choices (txs1 ++ t :: txs2) = .error PanicKind.unwrapFailed := by
  unfold count_votes
  rw [countLoop_append, h1]
  simp only [countLoop, h2, h3]
  rfl

/-- Claim C9 witness: a single transaction carrying the degenerate empty
vote code aborts the tally with the unwrap panic. -/
theorem claim_C9_witness :
    count_votes [] [txEmptyCode] = .error PanicKind.unwrapFailed := by
  have h := claim_C9_theorem [] [] [] txEmptyCode ⟨[]⟩ ([], 0, 0)
    rfl (by decide) rfl
  simpa using h

/-- Claim C10: whenever the tally completes, the final counters satisfy
`vote_for + vote_against ≤ min(|transactions|, |initial index|)`: each
increment consumes one transaction and removes one entry from the index. -/
theorem claim_C10_theorem (index : HMap) (txs : List Transaction) (f a : Nat)
    (h : count_votes index txs = .ok (f, a)) :
    f + a ≤ min txs.length index.length := by
  unfold count_votes at h
  cases hc : countLoop index 0 0 txs with
  | error p => rw [hc] at h; simp [Except.map] at h
  | ok s =>
    rw [hc] at h
    simp only [Except.map, Except.ok.injEq, Prod.mk.injEq] at h
    obtain ⟨hf, ha⟩ := h
    have hb := countLoop_le txs index 0 0 s hc
    omega

/-- Claim C10 witness: two transactions with the same code against a
two-entry index tally to counters summing to 1 ≤ min 2 2. -/
theorem claim_C10_witness :
    1 + 0 ≤ min (List.length [tx1111, tx1111]) exIndex.length :=
  claim_C10_theorem exIndex [tx1111, tx1111] 1 0 (by decide)
